import Mathlib

/-!
Verification of the claude-context retrieval pipeline.

Shallow embedding of the core algorithms of the repository:
the embedding cache (packages/core/src/cache/embedding-cache.ts),
the TF-IDF scorer (utils/tf-idf.ts), the file-type weighting
(utils/file-type-weighting.ts), the PRF engine (query/prf-engine.ts),
the AST chunker (splitter/ast-splitter.ts) and the retrieval
orchestrator (the Context class).

JavaScript strings are modelled as Lean String, or as List Char where
list lemmas are needed; JavaScript numbers used for exact arithmetic are
modelled as Nat or Rat; scores produced through Math.log are modelled as
Real.  Wall-clock time (Date.now) is outside the model: every
processingTimeMs field is 0.
-/

namespace EmbeddingCacheModel

/- A stored vector component: the source narrows each JS number to an
IEEE-754 binary32 value before storing (new Float32Array(embedding)); a
component is modelled by its 32-bit pattern, a Nat below 2 to the 32. -/

/-- Little-endian byte serialization of one 32-bit word, as done by
Buffer.from(float32Array.buffer) in EmbeddingCache.set. -/
def wordToBytes (x : Nat) : List Nat :=
  [x % 256, x / 256 % 256, x / 65536 % 256, x / 16777216 % 256]

/-- Serialize a whole vector into the BLOB stored in the embeddings table. -/
def packVector (v : List Nat) : List Nat :=
  v.flatMap wordToBytes

/-- Deserialization performed by EmbeddingCache.get: the BLOB is read back
through new Float32Array(buffer), four little-endian bytes per component. -/
def unpackBlob : List Nat → List Nat
  | b0 :: b1 :: b2 :: b3 :: rest =>
      (b0 + 256 * b1 + 65536 * b2 + 16777216 * b3) :: unpackBlob rest
  | _ => []

/-- State of the embeddings table: content_hash is the primary key, so the
table is a finite map from hash to BLOB.  Rows also carry dimension and
created_at; neither affects get, so they are elided. -/
def CacheDB := String → Option (List Nat)

/-- EmbeddingCache.set: INSERT OR REPLACE of the serialized vector under
the given content hash (upsert semantics). -/
def cacheSet (db : CacheDB) (contentHash : String) (v : List Nat) : CacheDB :=
  fun h => if h = contentHash then some (packVector v) else db h

/-- EmbeddingCache.get: look the hash up and deserialize the BLOB. -/
def cacheGet (db : CacheDB) (contentHash : String) : Option (List Nat) :=
  (db contentHash).map unpackBlob

end EmbeddingCacheModel

namespace TfIdfModel

/-- Tokenization used by TfIdf.createCorpusFromStringArray: replace CR and
LF by spaces, trim, then split on single spaces. -/
def tokenizeDocument (s : String) : List String :=
  ((((s.replace "\r" " ").replace "\n" " ").trim).splitOn " ")

/-- TfIdf.createCorpusFromStringArray over an initially empty corpus. -/
def createCorpusFromStringArray (docs : List String) : List (List String) :=
  docs.map tokenizeDocument

/-- The occurrence-counting loop of TfIdf.calculateTermFrequency: a
case-insensitive scan over the document tokens. -/
def tfCountLoop (term : String) : List String → Nat → Nat
  | [], acc => acc
  | w :: ws, acc =>
      tfCountLoop term ws (if w.toLower = term.toLower then acc + 1 else acc)

/-- TfIdf.calculateTermFrequency: occurrences divided by document length
plus one. -/
def calculateTermFrequency (term : String) (doc : List String) : ℚ :=
  ((tfCountLoop term doc 0 : ℚ)) / ((doc.length : ℚ) + 1)

/-- The inner loop of TfIdf.calculateInverseDocumentFrequency: does the
document contain the term, case-insensitively (the loop breaks at the
first hit). -/
def documentContains (term : String) (doc : List String) : Bool :=
  doc.any (fun w => w.toLower = term.toLower)

/-- The document-counting loop of calculateInverseDocumentFrequency. -/
def dfCountLoop (term : String) : List (List String) → Nat → Nat
  | [], acc => acc
  | d :: ds, acc =>
      dfCountLoop term ds (if documentContains term d then acc + 1 else acc)

/-- TfIdf.calculateInverseDocumentFrequency: minus one on an empty corpus,
otherwise log(N / (df + 1)) + 1. -/
noncomputable def calculateInverseDocumentFrequency
    (corpus : List (List String)) (term : String) : ℝ :=
  if corpus.length = 0 then -1
  else Real.log ((corpus.length : ℝ) / ((dfCountLoop term corpus 0 : ℝ) + 1)) + 1

end TfIdfModel

namespace FileTypeWeighting

/-- JS String.prototype.match against a regex made of literal characters
with no anchor: substring containment. -/
def jsIncludes (s sub : String) : Bool := decide (sub.toList <:+: s.toList)

/-- JS match against a regex of literal characters anchored with a dollar
sign: suffix test. -/
def matchesSuffix (s suffix : String) : Bool := decide (suffix.toList <:+ s.toList)

/-- Case-insensitive containment, for the regexes carrying the i flag. -/
def jsIncludesCI (s sub : String) : Bool := jsIncludes s.toLower sub.toLower

/-- The per-extension test-file patterns of getFileTypeWeight
(file-type-weighting.ts lines 8 to 34); Map.get misses yield the empty
list. -/
def testPatterns (ext : String) : List (String → Bool) :=
  if ext = ".py" then
    [fun p => jsIncludes p "/test_", fun p => matchesSuffix p "_test.py",
     fun p => jsIncludes p "/tests/", fun p => matchesSuffix p "/conftest.py"]
  else if ext = ".js" then
    [fun p => matchesSuffix p ".test.js", fun p => matchesSuffix p ".spec.js",
     fun p => jsIncludes p "/__tests__/", fun p => jsIncludes p "/test/"]
  else if ext = ".ts" then
    [fun p => matchesSuffix p ".test.ts", fun p => matchesSuffix p ".spec.ts",
     fun p => jsIncludes p "/__tests__/", fun p => jsIncludes p "/test/"]
  else if ext = ".tsx" then
    [fun p => matchesSuffix p ".test.tsx", fun p => matchesSuffix p ".spec.tsx",
     fun p => jsIncludes p "/__tests__/", fun p => jsIncludes p "/test/"]
  else if ext = ".java" then
    [fun p => matchesSuffix p "Test.java", fun p => matchesSuffix p "Tests.java",
     fun p => jsIncludes p "/src/test/"]
  else if ext = ".go" then
    [fun p => matchesSuffix p "_test.go"]
  else if ext = ".rb" then
    [fun p => matchesSuffix p "_spec.rb", fun p => matchesSuffix p "_test.rb",
     fun p => jsIncludes p "/spec/", fun p => jsIncludes p "/test/"]
  else if ext = ".cs" then
    [fun p => matchesSuffix p "Test.cs", fun p => matchesSuffix p "Tests.cs",
     fun p => jsIncludes p ".Tests."]
  else if ext = ".rs" then
    [fun p => matchesSuffix p "_test.rs", fun p => jsIncludes p "/tests/"]
  else if ext = ".php" then
    [fun p => matchesSuffix p "Test.php", fun p => jsIncludes p "/tests/"]
  else []

/-- The language-agnostic mock and stub patterns, all case-insensitive. -/
def mockPatterns : List (String → Bool) :=
  [fun p => jsIncludesCI p "/mock", fun p => jsIncludesCI p "/mocks",
   fun p => jsIncludesCI p "/stubs", fun p => jsIncludesCI p "/fixtures",
   fun p => jsIncludesCI p "mock-utils"]

/-- getFileTypeWeight: 0.8 for test and mock files, 1.0 otherwise. -/
def getFileTypeWeight (relativePath fileExtension : String) : ℚ :=
  let isTestFile := (testPatterns fileExtension).any (fun pat => pat relativePath)
  let isMockFile := mockPatterns.any (fun pat => pat relativePath)
  if isTestFile || isMockFile then 4/5 else 1

end FileTypeWeighting

namespace PRFEngineModel

/-- The mutable statistics record of PRFEngine. -/
structure EngineStats where
  totalQueries : Nat
  totalProcessingTime : ℚ
  successfulExpansions : Nat
deriving DecidableEq

/-- The statistics a fresh engine starts with (PRFEngine constructor). -/
def initialStats : EngineStats := ⟨0, 0, 0⟩

/-- PRFEngine.resetStats: all three counters back to zero. -/
def resetStats : EngineStats := ⟨0, 0, 0⟩

/-- The record returned by PRFEngine.getStats. -/
structure StatsView where
  totalQueries : Nat
  avgProcessingTime : ℚ
  successRate : ℚ
deriving DecidableEq

/-- PRFEngine.getStats: guarded averages, zero when no query was ever
processed. -/
def getStats (s : EngineStats) : StatsView :=
  ⟨s.totalQueries,
   if 0 < s.totalQueries then s.totalProcessingTime / (s.totalQueries : ℚ) else 0,
   if 0 < s.totalQueries then (s.successfulExpansions : ℚ) / (s.totalQueries : ℚ) else 0⟩

end PRFEngineModel

namespace ChunkerModel

/-- The whitespace class used to model JS String.prototype.trim on chunk
contents (space, tab, newline, carriage return, form feed, vertical
tab). -/
def isJsWhitespace (c : Char) : Bool :=
  c = ' ' || c = '\t' || c = '\n' || c = '\r' || c = '\x0c' || c = '\x0b'

/-- JS trim on a character list: remove trailing then leading whitespace. -/
def trimChars (l : List Char) : List Char :=
  (l.rdropWhile isJsWhitespace).dropWhile isJsWhitespace

/-- JS String.prototype.split with separator newline. -/
def splitLines : List Char → List (List Char)
  | [] => [[]]
  | c :: cs =>
      if c = '\n' then [] :: splitLines cs
      else
        match splitLines cs with
        | r :: rs => (c :: r) :: rs
        | [] => [[c]]

/-- A code chunk as produced by AstCodeSplitter: content plus 1-based line
metadata.  The language and filePath metadata fields are copied through
every splitter operation unchanged and are elided from the model. -/
structure CodeChunk where
  content : List Char
  startLine : Nat
  endLine : Nat
deriving DecidableEq, Repr

/-- Loop state of AstCodeSplitter.splitLargeChunk. -/
structure SplitState where
  subChunks : List CodeChunk
  currentChunk : List Char
  currentStartLine : Nat
  currentLineCount : Nat

/-- One iteration of the line loop in AstCodeSplitter.splitLargeChunk:
close the running sub-chunk when the next line would overflow chunkSize,
unless the running sub-chunk is empty (force include). -/
def splitStep (chunkSize origStartLine : Nat) (i : Nat) (isLast : Bool)
    (line : List Char) (st : SplitState) : SplitState :=
  let lineWithNewline := if isLast then line else line ++ ['\n']
  if chunkSize < st.currentChunk.length + lineWithNewline.length
      ∧ 0 < st.currentChunk.length then
    { subChunks := st.subChunks
        ++ [⟨trimChars st.currentChunk, st.currentStartLine,
             st.currentStartLine + st.currentLineCount - 1⟩],
      currentChunk := lineWithNewline,
      currentStartLine := origStartLine + i,
      currentLineCount := 1 }
  else
    { st with
      currentChunk := st.currentChunk ++ lineWithNewline,
      currentLineCount := st.currentLineCount + 1 }

/-- The full line loop of splitLargeChunk; the last line is not given a
trailing newline. -/
def splitLoop (chunkSize origStartLine : Nat) :
    List (List Char) → Nat → SplitState → SplitState
  | [], _, st => st
  | [line], i, st => splitStep chunkSize origStartLine i true line st
  | line :: rest, i, st =>
      splitLoop chunkSize origStartLine rest (i + 1)
        (splitStep chunkSize origStartLine i false line st)

/-- AstCodeSplitter.splitLargeChunk: split an oversized chunk on line
boundaries, then append the final running sub-chunk when its trimmed
content is non-empty. -/
def splitLargeChunk (chunkSize : Nat) (chunk : CodeChunk) : List CodeChunk :=
  let st := splitLoop chunkSize chunk.startLine (splitLines chunk.content) 0
    ⟨[], [], chunk.startLine, 0⟩
  if 0 < (trimChars st.currentChunk).length then
    st.subChunks
      ++ [⟨trimChars st.currentChunk, st.currentStartLine,
           st.currentStartLine + st.currentLineCount - 1⟩]
  else st.subChunks

/-- AstCodeSplitter.deduplicateChunks: keep the first chunk for every
(startLine, endLine) pair. -/
def dedupLoop : List CodeChunk → List (Nat × Nat) → List CodeChunk
  | [], _ => []
  | c :: cs, seen =>
      if (c.startLine, c.endLine) ∈ seen then dedupLoop cs seen
      else c :: dedupLoop cs ((c.startLine, c.endLine) :: seen)

/-- Entry point of the deduplication pass. -/
def deduplicateChunks (chunks : List CodeChunk) : List CodeChunk :=
  dedupLoop chunks []

/-- Number of lines of a text, as AstCodeSplitter.getLineCount computes
it. -/
def getLineCount (text : List Char) : Nat := (splitLines text).length

/-- The loop of AstCodeSplitter.addOverlap: each chunk after the first is
prefixed with the last chunkOverlap characters of its predecessor. -/
def addOverlapLoop (ov : Nat) : CodeChunk → List CodeChunk → List CodeChunk
  | _, [] => []
  | prev, c :: cs =>
      let overlapText := prev.content.drop (prev.content.length - ov)
      ⟨overlapText ++ '\n' :: c.content,
       max 1 (c.startLine - getLineCount overlapText), c.endLine⟩
        :: addOverlapLoop ov c cs

/-- AstCodeSplitter.addOverlap: identity when overlap is disabled or there
is at most one chunk. -/
def addOverlap (ov : Nat) (chunks : List CodeChunk) : List CodeChunk :=
  if chunks.length ≤ 1 ∨ ov = 0 then chunks
  else
    match chunks with
    | [] => []
    | c :: cs => c :: addOverlapLoop ov c cs

/-- AstCodeSplitter.refineChunks: split every oversized chunk, then
deduplicate and apply the optional overlap pass. -/
def refineChunks (chunkSize ov : Nat) (chunks : List CodeChunk) : List CodeChunk :=
  let refined := chunks.flatMap fun c =>
    if c.content.length ≤ chunkSize then [c] else splitLargeChunk chunkSize c
  addOverlap ov (deduplicateChunks refined)

/-- A parsed tree-sitter syntax node: node type, byte offsets, 0-based row
positions and children, as read by AstCodeSplitter. -/
inductive SNode where
  | mk (kind : String) (startIndex endIndex startRow endRow : Nat)
      (children : List SNode)

/-- Node type accessor. -/
def SNode.kind : SNode → String
  | .mk k _ _ _ _ _ => k

/-- Start byte offset accessor. -/
def SNode.startIndex : SNode → Nat
  | .mk _ s _ _ _ _ => s

/-- End byte offset accessor. -/
def SNode.endIndex : SNode → Nat
  | .mk _ _ e _ _ _ => e

/-- Start row (0-based) accessor. -/
def SNode.startRow : SNode → Nat
  | .mk _ _ _ r _ _ => r

/-- End row (0-based) accessor. -/
def SNode.endRow : SNode → Nat
  | .mk _ _ _ _ r _ => r

/-- Children accessor. -/
def SNode.children : SNode → List SNode
  | .mk _ _ _ _ _ cs => cs

mutual

/-- Structural equality test on syntax nodes. -/
def SNode.beq : SNode → SNode → Bool
  | .mk k1 s1 e1 a1 b1 c1, .mk k2 s2 e2 a2 b2 c2 =>
      k1 = k2 && s1 = s2 && e1 = e2 && a1 = a2 && b1 = b2
        && SNode.beqList c1 c2

/-- Structural equality test on node lists. -/
def SNode.beqList : List SNode → List SNode → Bool
  | [], [] => true
  | x :: xs, y :: ys => SNode.beq x y && SNode.beqList xs ys
  | _, _ => false

end

mutual

def SNode.beq_iff : ∀ a b : SNode, SNode.beq a b = true ↔ a = b
  | .mk k1 s1 e1 a1 b1 c1, .mk k2 s2 e2 a2 b2 c2 => by
      simp only [SNode.beq, Bool.and_eq_true, decide_eq_true_eq, SNode.mk.injEq]
      rw [SNode.beqList_iff c1 c2]
      tauto

def SNode.beqList_iff : ∀ as bs : List SNode, SNode.beqList as bs = true ↔ as = bs
  | [], [] => by simp [SNode.beqList]
  | [], _ :: _ => by simp [SNode.beqList]
  | _ :: _, [] => by simp [SNode.beqList]
  | x :: xs, y :: ys => by
      simp only [SNode.beqList, Bool.and_eq_true, List.cons.injEq]
      rw [SNode.beq_iff x y, SNode.beqList_iff xs ys]

end

instance : DecidableEq SNode := fun a b =>
  decidable_of_iff (SNode.beq a b = true) (SNode.beq_iff a b)

/-- JS String.prototype.slice(start, end): the node text
code.slice(node.startIndex, node.endIndex). -/
def sliceCode (code : List Char) (s e : Nat) : List Char :=
  (code.drop s).take (e - s)

/-- AstCodeSplitter.isWhitespaceNode: newline or whitespace node types, or
a node whose trimmed text is empty. -/
def isWhitespaceNode (code : List Char) (n : SNode) : Bool :=
  n.kind = "\n" || n.kind = "whitespace"
    || trimChars (sliceCode code n.startIndex n.endIndex) = []

/-- The sibling walk of AstCodeSplitter.groupConsecutiveImports:
accumulate import_statement nodes, skip comment and whitespace nodes,
stop at the first other node. -/
def collectImports (code : List Char) : List SNode → List SNode
  | [] => []
  | child :: rest =>
      if child.kind = "import_statement" then child :: collectImports code rest
      else if child.kind = "comment" || isWhitespaceNode code child then
        collectImports code rest
      else []

/-- The chunk AstCodeSplitter emits for a splittable node. -/
def chunkOfNode (code : List Char) (n : SNode) : CodeChunk :=
  ⟨sliceCode code n.startIndex n.endIndex, n.startRow + 1, n.endRow + 1⟩

/-- AstCodeSplitter.groupConsecutiveImports: with at least two leading
imports, one chunk from the first import start offset to the last import
end offset, and the set of consumed nodes. -/
def groupConsecutiveImports (code : List Char) (root : SNode) :
    Option CodeChunk × List SNode :=
  let imports := collectImports code root.children
  match imports with
  | [] => (none, [])
  | [_] => (none, [])
  | f :: r :: rest =>
      let l := (r :: rest).getLast (List.cons_ne_nil r rest)
      (some ⟨sliceCode code f.startIndex l.endIndex,
             f.startRow + 1, l.endRow + 1⟩, f :: r :: rest)

mutual

/-- The pre-order traversal of AstCodeSplitter.extractChunks: skip
consumed nodes entirely, emit a chunk for every splittable node with
non-empty trimmed text, and always continue into children. -/
def traverse (code : List Char) (types : List String)
    (processed : List SNode) : SNode → List CodeChunk
  | .mk k s e r0 r1 cs =>
      if SNode.mk k s e r0 r1 cs ∈ processed then []
      else
        (if k ∈ types ∧ 0 < (trimChars (sliceCode code s e)).length then
          [⟨sliceCode code s e, r0 + 1, r1 + 1⟩]
        else [])
          ++ traverseList code types processed cs

/-- Traversal of a child list, in order. -/
def traverseList (code : List Char) (types : List String)
    (processed : List SNode) : List SNode → List CodeChunk
  | [] => []
  | n :: ns =>
      traverse code types processed n ++ traverseList code types processed ns

end

/-- AstCodeSplitter.extractChunks: the grouped import chunk first, then
the traversal, with a whole-file fallback chunk when nothing was
emitted. -/
def extractChunks (code : List Char) (types : List String) (root : SNode) :
    List CodeChunk :=
  let gp := groupConsecutiveImports code root
  let base := match gp.1 with
    | some c => [c]
    | none => []
  let chunks := base ++ traverse code types gp.2 root
  if chunks = [] then [⟨code, 1, (splitLines code).length⟩] else chunks

/-- AstCodeSplitter.split after a successful parse: extraction followed by
refinement. -/
def astSplit (chunkSize ov : Nat) (code : List Char) (types : List String)
    (root : SNode) : List CodeChunk :=
  refineChunks chunkSize ov (extractChunks code types root)

/-- The splittable node types registered for the typescript and tsx
grammars (SPLITTABLE_NODE_TYPES). -/
def typescriptTypes : List String :=
  ["import_statement", "function_declaration", "class_declaration",
   "method_definition", "export_statement", "interface_declaration",
   "type_alias_declaration", "variable_declaration", "lexical_declaration",
   "arrow_function", "export_declaration"]

/-- The splittable node types registered for the java grammar
(SPLITTABLE_NODE_TYPES). -/
def javaTypes : List String :=
  ["method_declaration", "class_declaration", "interface_declaration",
   "constructor_declaration", "import_declaration", "package_declaration",
   "field_declaration", "local_variable_declaration"]

/-- The size property every refined chunk satisfies: within the bound, or
a single force-included line. -/
def sizeOk (chunkSize : Nat) (c : CodeChunk) : Prop :=
  c.content.length ≤ chunkSize ∨ '\n' ∉ c.content

/-- The loop invariant of splitLargeChunk: all closed sub-chunks satisfy
sizeOk and the running sub-chunk is within the bound or a single line. -/
def GoodState (chunkSize : Nat) (st : SplitState) : Prop :=
  (∀ c ∈ st.subChunks, sizeOk chunkSize c)
    ∧ (st.currentChunk.length ≤ chunkSize
        ∨ '\n' ∉ trimChars st.currentChunk)

mutual

/-- All nodes of a subtree, the node itself first. -/
def allNodes : SNode → List SNode
  | .mk k s e r0 r1 cs => SNode.mk k s e r0 r1 cs :: allNodesList cs

/-- All nodes of a forest. -/
def allNodesList : List SNode → List SNode
  | [] => []
  | n :: ns => allNodes n ++ allNodesList ns

end

/-- Concrete TSX-style source: three imports then a declaration. -/
def tsxExampleCode : List Char :=
  "import a;\nimport b;\nimport c;\nconst d = 1;".toList

/-- First import node of the TSX example (line 1). -/
def tsxImp1 : SNode := SNode.mk "import_statement" 0 9 0 0 []

/-- Second import node of the TSX example (line 2). -/
def tsxImp2 : SNode := SNode.mk "import_statement" 10 19 1 1 []

/-- Third import node of the TSX example (line 3). -/
def tsxImp3 : SNode := SNode.mk "import_statement" 20 29 2 2 []

/-- Declaration node of the TSX example (line 4). -/
def tsxDecl : SNode := SNode.mk "lexical_declaration" 30 42 3 3 []

/-- Root node of the TSX example. -/
def tsxRoot : SNode :=
  SNode.mk "program" 0 42 0 3 [tsxImp1, tsxImp2, tsxImp3, tsxDecl]

/-- Concrete Java-style source: two imports then a class. -/
def javaExampleCode : List Char :=
  "import a.b;\nimport c.d;\nclass E".toList

/-- Root node of the Java example: two import_declaration siblings and a
class_declaration. -/
def javaRoot : SNode :=
  SNode.mk "program" 0 31 0 2
    [SNode.mk "import_declaration" 0 11 0 0 [],
     SNode.mk "import_declaration" 12 23 1 1 [],
     SNode.mk "class_declaration" 24 31 2 2 []]

end ChunkerModel

namespace ContextTypes

/-- SemanticSearchResult (core/src/types.ts): the record the retriever
returns; scores are modelled as exact rationals. -/
structure SemanticSearchResult where
  content : String
  relativePath : String
  startLine : Nat
  endLine : Nat
  language : String
  score : ℚ
deriving DecidableEq

end ContextTypes

namespace PRFEngineModel

/-- An ASCII lowercase letter, the JS character class a-z. -/
def isAsciiLower (c : Char) : Bool := 'a' ≤ c && c ≤ 'z'

/-- An ASCII uppercase letter, the JS character class A-Z. -/
def isAsciiUpper (c : Char) : Bool := 'A' ≤ c && c ≤ 'Z'

/-- An ASCII letter. -/
def isAsciiLetter (c : Char) : Bool := isAsciiLower c || isAsciiUpper c

/-- An ASCII digit, the JS character class backslash-d. -/
def isAsciiDigit (c : Char) : Bool := '0' ≤ c && c ≤ '9'

/-- A JS word character (backslash-w): letter, digit or underscore. -/
def isWordChar (c : Char) : Bool := isAsciiLetter c || isAsciiDigit c || c = '_'

/-- A JS whitespace character (backslash-s), restricted to the ASCII
whitespace actually occurring in code. -/
def isWsChar (c : Char) : Bool :=
  c = ' ' || c = '\t' || c = '\n' || c = '\r' || c = '\x0c' || c = '\x0b'

/-- Insert а space between adjacent characters matched by p then q, the
effect of a global replace of (p)(q) with the two groups separated by a
space. -/
def insertSpaceBetween (p q : Char → Bool) : List Char → List Char
  | [] => []
  | [c] => [c]
  | a :: b :: rest =>
      if p a && q b then a :: ' ' :: insertSpaceBetween p q (b :: rest)
      else a :: insertSpaceBetween p q (b :: rest)

/-- Replace every run of the character t by a single space, the effect of
a global replace of t+ with a space. -/
def squashRuns (t : Char) : List Char → List Char
  | [] => []
  | c :: cs =>
      if c = t then ' ' :: squashRuns t (cs.dropWhile (fun d => d = t))
      else c :: squashRuns t cs
termination_by l => l.length
decreasing_by
  · simp only [List.length_cons]
    exact Nat.lt_succ_of_le (List.dropWhile_suffix (fun d => d = t)).length_le
  · simp

/-- Collapse every whitespace run into a single space, the effect of a
global replace of backslash-s+ with a space. -/
def collapseWs : List Char → List Char
  | [] => []
  | c :: cs =>
      if isWsChar c then ' ' :: collapseWs (cs.dropWhile isWsChar)
      else c :: collapseWs cs
termination_by l => l.length
decreasing_by
  · simp only [List.length_cons]
    exact Nat.lt_succ_of_le (List.dropWhile_suffix isWsChar).length_le
  · simp

/-- PRFEngine.preprocessContent: optional code-aware splitting, then
non-word characters to spaces, whitespace collapsing, lowercasing and
trimming. -/
def preprocessContent (codeTokens : Bool) (content : String) : String :=
  if content = "" then ""
  else
    let processed :=
      if codeTokens then
        insertSpaceBetween isAsciiDigit isAsciiLetter
          (insertSpaceBetween isAsciiLetter isAsciiDigit
            (squashRuns '-' (squashRuns '_'
              (insertSpaceBetween isAsciiLower isAsciiUpper content.toList))))
      else content.toList
    (ChunkerModel.trimChars
      ((collapseWs
        (processed.map (fun c => if isWordChar c || isWsChar c then c else ' '))).map
          Char.toLower)).asString

/-- JS String.prototype.split on backslash-s+ followed by the filter for
non-empty tokens, as used to tokenize a preprocessed document. -/
def wsTokens (s : String) : List String :=
  ((s.toList.splitOnP isWsChar).filter (fun t => t ≠ [])).map List.asString

/-- The per-term statistics tracked by
PRFEngine.calculateTermStatistics. -/
structure TermStats where
  tfidfScore : ℝ
  frequency : Nat
  documentCount : Nat

/-- ExpansionTerm (query/prf-types.ts). -/
structure ExpansionTerm where
  term : String
  score : ℝ
  frequency : Nat
  documentCount : Nat
  source : String

/-- PRFResult (query/prf-types.ts); processingTimeMs is 0 in the model
(wall-clock time is outside it). -/
structure PRFResult where
  originalQuery : String
  expandedQuery : String
  expansionTerms : List ExpansionTerm
  documentsAnalyzed : Nat
  reasoning : String
  processingTimeMs : ℚ

/-- PRFConfig (query/prf-types.ts); the stop-word set is a list. -/
structure PRFConfig where
  enabled : Bool
  topK : Nat
  expansionTerms : Nat
  minTermFreq : Nat
  originalWeight : ℚ
  codeTokens : Bool
  minTermLength : Nat
  stopWords : List String

/-- DEFAULT_PRF_CONFIG (query/prf-types.ts). -/
def defaultPRFConfig : PRFConfig :=
  ⟨false, 7, 8, 2, 7/10, true, 3,
   ["the", "and", "or", "but", "in", "on", "at", "to", "for", "of", "with",
    "by", "an", "a", "is", "are", "was", "were", "be", "been", "have", "has",
    "had", "do", "does", "did", "will", "would", "could", "should", "may",
    "might", "can", "must", "this", "that", "these", "those", "i", "you",
    "he", "she", "it", "we", "they", "me", "him", "her", "us", "them", "my",
    "your", "his", "its", "our", "their", "get", "set", "var", "let",
    "const", "if", "else", "then", "when", "where", "how", "why", "what",
    "which", "who", "todo", "fixme", "hack", "note", "warning", "deprecated",
    "readonly", "abstract", "static", "final", "override", "virtual",
    "async", "await", "yield", "return"]⟩

/-- Substring containment, JS String.prototype.includes. -/
def strIncludes (s sub : String) : Bool := decide (sub.toList <:+: s.toList)

/-- PRFEngine.isNoisePattern: the four noise regexes. -/
def isNoisePattern (term : String) : Bool :=
  let t := term.toList
  (match t with
   | [c] => isAsciiLower c
   | _ => false)
  || (t.takeWhile isAsciiDigit ≠ []
      && (t.dropWhile isAsciiDigit = []
          || (match t.dropWhile isAsciiDigit with
              | [c] => isAsciiLower c
              | _ => false)))
  || (t.length ≥ 2 && t.all (fun c => c = 'x'))
  || (match t with
      | c :: rest => (c = 'x' || c = 'y' || c = 'z') && rest.all isAsciiDigit
      | [] => false)

/-- PRFEngine.shouldIncludeTerm: length, stop-word, substring-of-query,
pure-number, leading-letter and noise filters. -/
def shouldIncludeTerm (cfg : PRFConfig) (originalQuery term : String) : Bool :=
  let termLower := term.toLower
  let queryLower := originalQuery.toLower
  decide (term.length ≥ cfg.minTermLength)
    && !(cfg.stopWords.contains termLower)
    && !(strIncludes queryLower termLower)
    && !(term.toList ≠ [] && term.toList.all isAsciiDigit)
    && (match term.toList with
        | c :: _ => isAsciiLetter c
        | [] => false)
    && !(isNoisePattern term)

/-- One Map update of calculateTermStatistics: max of scores, cumulative
frequency, incremented document count; insertion order preserved. -/
noncomputable def updateTermStats (term : String) (tfidf : ℝ) (cnt : Nat) :
    List (String × TermStats) → List (String × TermStats)
  | [] => [(term, ⟨max 0 tfidf, cnt, 1⟩)]
  | (k, st) :: rest =>
      if k = term then
        (k, ⟨max st.tfidfScore tfidf, st.frequency + cnt, st.documentCount + 1⟩) :: rest
      else (k, st) :: updateTermStats term tfidf cnt rest

/-- Order-preserving deduplication, the JS spread of a Set over the
document tokens. -/
def uniqueKeepFirst : List String → List String → List String
  | [], _ => []
  | t :: ts, seen =>
      if t ∈ seen then uniqueKeepFirst ts seen
      else t :: uniqueKeepFirst ts (t :: seen)

/-- The statistics pass of PRFEngine.calculateTermStatistics over one
document: for every unique token, tf times idf against the corpus, with
cumulative counters. -/
noncomputable def statsForDoc (corpus : List (List String))
    (docTerms : List String) (m : List (String × TermStats)) :
    List (String × TermStats) :=
  (uniqueKeepFirst docTerms []).foldl
    (fun acc term =>
      let tf := TfIdfModel.calculateTermFrequency term docTerms
      let idf := TfIdfModel.calculateInverseDocumentFrequency corpus term
      updateTermStats term ((tf : ℝ) * idf)
        (docTerms.countP (fun t => t = term)) acc)
    m

/-- PRFEngine.calculateTermStatistics over all documents. -/
noncomputable def calculateTermStatistics (corpus : List (List String))
    (documents : List String) : List (String × TermStats) :=
  documents.foldl
    (fun acc doc => statsForDoc corpus (wsTokens doc) acc) []

/-- PRFEngine.extractExpansionTerms: preprocess, build the corpus, score,
filter, sort by score descending and truncate. -/
noncomputable def extractExpansionTerms (cfg : PRFConfig)
    (originalQuery : String) (docs : List ContextTypes.SemanticSearchResult) :
    List ExpansionTerm :=
  let processedDocs := docs.map (fun d => preprocessContent cfg.codeTokens d.content)
  let corpus := TfIdfModel.createCorpusFromStringArray processedDocs
  let termStats := calculateTermStatistics corpus processedDocs
  let candidates := (termStats.map
      (fun p => ExpansionTerm.mk p.1 p.2.tfidfScore p.2.frequency
        p.2.documentCount "tfidf")).filter
      (fun t => shouldIncludeTerm cfg originalQuery t.term)
  (candidates.mergeSort (fun a b => decide (b.score ≤ a.score))).take
    cfg.expansionTerms

/-- PRFEngine.buildExpandedQuery: RM3-style concatenation, expansion
terms first exactly when the expansion weight exceeds one half. -/
def buildExpandedQuery (cfg : PRFConfig) (originalQuery : String)
    (terms : List ExpansionTerm) : String :=
  if terms.isEmpty then originalQuery
  else
    let topTerms := (terms.take (min cfg.expansionTerms terms.length)).map
      (fun t => t.term)
    let joined := String.intercalate " " topTerms
    if 1 - cfg.originalWeight > 1/2 then joined ++ " " ++ originalQuery
    else originalQuery ++ " " ++ joined

/-- PRFEngine.generateReasoning for the success path.  The counts are
rendered exactly; the decimal rendering of the average score (toFixed) is
outside the model and is reported through the placeholder text avg. -/
def generateReasoning (cfg : PRFConfig) (terms : List ExpansionTerm)
    (documentsAnalyzed : Nat) : String :=
  let base := "Analyzed " ++ toString documentsAnalyzed
    ++ " pseudo-relevant documents"
  let withTerms :=
    if !terms.isEmpty then
      base ++ "; Extracted " ++ toString terms.length
        ++ " expansion terms using TF-IDF analysis"
        ++ "; Top terms: "
            ++ String.intercalate ", " ((terms.take 3).map (fun t => t.term))
        ++ "; Average TF-IDF score: avg"
    else base
  if cfg.codeTokens then withTerms ++ "; Applied code-aware tokenization"
  else withTerms

/-- PRFEngine.createEmptyResult: echo the original query. -/
def createEmptyResult (originalQuery reason : String) : PRFResult :=
  ⟨originalQuery, originalQuery, [], 0, reason, 0⟩

/-- The body of PRFEngine.expandQuery inside its try block; the only
throw site is the empty-query validation. -/
noncomputable def expandQueryBody (cfg : PRFConfig) (originalQuery : String)
    (searchResults : List ContextTypes.SemanticSearchResult) :
    Except String PRFResult :=
  if ChunkerModel.trimChars originalQuery.toList = [] then
    Except.error "Original query cannot be empty"
  else if searchResults = [] then
    Except.ok (createEmptyResult originalQuery "No search results provided")
  else
    let pseudoRelevantDocs := searchResults.take cfg.topK
    if pseudoRelevantDocs.length < min 3 cfg.topK then
      Except.ok (createEmptyResult originalQuery
        ("Insufficient documents: " ++ toString pseudoRelevantDocs.length
          ++ " < " ++ toString (min 3 cfg.topK) ++ " required"))
    else
      let terms := extractExpansionTerms cfg originalQuery pseudoRelevantDocs
      if terms.isEmpty then
        Except.ok (createEmptyResult originalQuery
          "No valid expansion terms found after filtering")
      else
        Except.ok
          ⟨originalQuery, buildExpandedQuery cfg originalQuery terms, terms,
           pseudoRelevantDocs.length,
           generateReasoning cfg terms pseudoRelevantDocs.length, 0⟩

/-- PRFEngine.expandQuery: the try/catch wrapper; every thrown error is
converted into a fallback PRFResult echoing the original query. -/
noncomputable def expandQuery (cfg : PRFConfig) (originalQuery : String)
    (searchResults : List ContextTypes.SemanticSearchResult) : PRFResult :=
  match expandQueryBody cfg originalQuery searchResults with
  | Except.ok r => r
  | Except.error msg =>
      ⟨originalQuery, originalQuery, [], 0,
       "PRF expansion failed: " ++ msg, 0⟩

/-- The error kind named by the specification for invalid inputs. -/
inductive PRFError where
  | invalidArgument
deriving DecidableEq

/-- The caller-visible outcome of PRFEngine.expandQuery: the source
function body is one try/catch whose catch never rethrows, so the
returned promise always resolves with a PRFResult. -/
noncomputable def expandQuerySurfaced (cfg : PRFConfig) (originalQuery : String)
    (searchResults : List ContextTypes.SemanticSearchResult) :
    Except PRFError PRFResult :=
  Except.ok (expandQuery cfg originalQuery searchResults)

end PRFEngineModel

namespace RetrievalModel

open ContextTypes

/-- PreprocessingResult (query/types.ts). -/
structure PreprocessingResult where
  originalQuery : String
  normalizedQuery : String
  expandedTerms : List String
  detectedPatterns : List String
  reasoning : String
deriving DecidableEq

/-- Substring containment, JS String.prototype.includes. -/
def strIncludes (s sub : String) : Bool := decide (sub.toList <:+: s.toList)

/-- JS String.prototype.startsWith, on character lists. -/
def strStartsWith (s pre : String) : Bool := decide (pre.toList <+: s.toList)

/-- JS String.prototype.substring(n): drop the first n characters. -/
def strDropChars (s : String) (n : Nat) : String := (s.toList.drop n).asString

/-- JS String.prototype.toLowerCase, on character lists. -/
def strLower (s : String) : String := (s.toList.map Char.toLower).asString

/-- Context.selectBestSearchQuery: the five strategies in order, then the
normalized query. -/
def selectBestSearchQuery (pre : PreprocessingResult) : String :=
  let orig := pre.originalQuery
  let filenamePatterns := pre.detectedPatterns.filter
    (fun p => strStartsWith p "filename:")
  let s1 : Option String :=
    if filenamePatterns.length > 0 then
      match pre.expandedTerms.find? (fun term =>
          filenamePatterns.any (fun pat => strIncludes term (strDropChars pat 9))) with
      | some fq => if fq ≠ orig then some fq else none
      | none => none
    else none
  match s1 with
  | some q => q
  | none =>
    let languagePatterns := pre.detectedPatterns.filter
      (fun p => strStartsWith p "language:")
    let s2 : Option String :=
      if languagePatterns.length > 0 then
        pre.expandedTerms.find? (fun term =>
          languagePatterns.any (fun pat =>
            strIncludes (strLower term) (strDropChars pat 9) && term ≠ orig))
      else none
    match s2 with
    | some q => q
    | none =>
      let s3 := pre.expandedTerms.find? (fun term =>
        term ≠ orig
          && ["function", "class", "method", "implementation",
              "definition"].any (fun it => strIncludes (strLower term) it))
      match s3 with
      | some q => q
      | none =>
        let s4 := pre.expandedTerms.find? (fun term =>
          term ≠ orig
            && (strIncludes term "javascript" || strIncludes term "python"
              || strIncludes term "typescript" || strIncludes term "authentication"
              || strIncludes term "configuration" || strIncludes term "database"))
        match s4 with
        | some q => q
        | none =>
          let s5 : Option String :=
            if pre.expandedTerms.length > 1 then
              match pre.expandedTerms with
              | [] => none
              | h :: t =>
                  let longest := t.foldl
                    (fun longest current =>
                      if current.length > longest.length then current
                      else longest) h
                  if longest ≠ orig then some longest else none
            else none
          match s5 with
          | some q => q
          | none => pre.normalizedQuery

/-- One selection step of Context.selectTopSearchQueries: append the
first matching unused term when below the bound. -/
def selectStep (selected : List String) (maxQueries : Nat)
    (cand : Option String) : List String :=
  if selected.length < maxQueries then
    match cand with
    | some q => selected ++ [q]
    | none => selected
  else selected

/-- Context.selectTopSearchQueries: filename, technical and
implementation priorities, then the longest remaining variants, always
at least the normalized query. -/
def selectTopSearchQueries (pre : PreprocessingResult) (maxQueries : Nat) :
    List String :=
  let orig := pre.originalQuery
  let filenamePatterns := pre.detectedPatterns.filter
    (fun p => strStartsWith p "filename:")
  let s1 :=
    if filenamePatterns.length > 0 then
      selectStep [] maxQueries
        (pre.expandedTerms.find? (fun term =>
          filenamePatterns.any (fun pat => strIncludes term (strDropChars pat 9))
            && term ∉ ([] : List String)))
    else []
  let s2 := selectStep s1 maxQueries
    (pre.expandedTerms.find? (fun term =>
      term ≠ orig && term ∉ s1
        && (strIncludes term "javascript" || strIncludes term "python"
          || strIncludes term "typescript" || strIncludes term "authentication"
          || strIncludes term "configuration" || strIncludes term "database")))
  let s3 := selectStep s2 maxQueries
    (pre.expandedTerms.find? (fun term =>
      term ≠ orig && term ∉ s2
        && ["function", "class", "method", "implementation"].any
            (fun it => strIncludes (strLower term) it)))
  let remaining := (pre.expandedTerms.filter
      (fun term => term ∉ s3 && term ≠ orig)).mergeSort
    (fun a b => decide (b.length ≤ a.length))
  let s4 := s3 ++ remaining.take (maxQueries - s3.length)
  if s4.isEmpty then [pre.normalizedQuery] else s4

/-- The multi-query decision of Context.semanticSearch: strictly more
than two variants and at least one detected pattern. -/
def useMultipleVariants (pre : PreprocessingResult) : Bool :=
  pre.expandedTerms.length > 2 && pre.detectedPatterns.length > 0

/-- The collaborators Context.semanticSearch awaits: the preprocessor,
the vector store (dense and hybrid search as functions of the primary
variant, the limit, and for dense search the threshold and filter), and
the optional cross-encoder reranker, none failing on these paths. -/
structure RetrievalEnv where
  preprocess : String → PreprocessingResult
  hasCollection : Bool
  isHybrid : Bool
  rerankerEnabled : Bool
  hybridResults : String → Nat → Option String → List SemanticSearchResult
  denseResults : String → Nat → ℚ → Option String → List SemanticSearchResult
  rerank : String → List SemanticSearchResult → Nat →
    Option (List SemanticSearchResult)

/-- Context.semanticSearch: preprocess, select variants, return empty
when the collection does not exist, then hybrid or dense retrieval with
the reranker-adjusted limit and the optional cross-encoder pass. -/
def semanticSearch (env : RetrievalEnv) (query : String) (topK : Nat)
    (threshold : ℚ) (filterExpr : Option String) : List SemanticSearchResult :=
  let pre := env.preprocess query
  let searchQueries :=
    if useMultipleVariants pre then selectTopSearchQueries pre 3
    else [selectBestSearchQuery pre]
  let primary := searchQueries.headD ""
  if !env.hasCollection then []
  else
    let searchLimit := if env.rerankerEnabled then min (topK * 2) 50 else topK
    let searchResults :=
      if env.isHybrid then env.hybridResults primary searchLimit filterExpr
      else env.denseResults primary searchLimit threshold filterExpr
    if env.rerankerEnabled && !searchResults.isEmpty then
      match env.rerank primary searchResults topK with
      | some rr => rr
      | none => searchResults.take topK
    else searchResults.take topK

/-- The retrieval error kind named by the specification. -/
inductive ContextError where
  | notIndexed
deriving DecidableEq

/-- The caller-visible outcome of Context.semanticSearch: the source
method contains no throw statement, so with non-failing collaborators the
returned promise always resolves with the result list. -/
def semanticSearchSurfaced (env : RetrievalEnv) (query : String) (topK : Nat)
    (threshold : ℚ) (filterExpr : Option String) :
    Except ContextError (List SemanticSearchResult) :=
  Except.ok (semanticSearch env query topK threshold filterExpr)

/-- The first-pass limit of Context.semanticSearchWithPRF: 15 when the
PRF engine has processed no query yet, else 12, each floored by twice
topK. -/
def prfInitialTopK (totalQueries topK : Nat) : Nat :=
  max (if totalQueries = 0 then 15 else 12) (topK * 2)

/-- Context.mergeSearchResults: enhanced results first, deduplicated by
relativePath, startLine and endLine, truncated to topK. -/
def mergeStep (topK : Nat)
    (st : List (String × Nat × Nat) × List SemanticSearchResult)
    (r : SemanticSearchResult) :
    List (String × Nat × Nat) × List SemanticSearchResult :=
  let key := (r.relativePath, r.startLine, r.endLine)
  if key ∉ st.1 ∧ st.2.length < topK then (key :: st.1, st.2 ++ [r]) else st

/-- Context.mergeSearchResults over both passes. -/
def mergeSearchResults (enhanced original : List SemanticSearchResult)
    (topK : Nat) : List SemanticSearchResult :=
  (original.foldl (mergeStep topK) (enhanced.foldl (mergeStep topK) ([], []))).2

/-- Context.semanticSearchWithPRF with the PRF engine initialized: first
pass at the widened limit and lowered threshold, early empty return,
expansion through the engine, optional second pass and merge.  The
engine call is the expand argument; totalQueries is the engine statistic
read for the first-pass limit. -/
def semanticSearchWithPRF (env : RetrievalEnv)
    (expand : String → List SemanticSearchResult → PRFEngineModel.PRFResult)
    (totalQueries : Nat) (query : String) (topK : Nat) (threshold : ℚ)
    (filterExpr : Option String) : List SemanticSearchResult :=
  let initialTopK := prfInitialTopK totalQueries topK
  let firstPass := semanticSearch env query initialTopK (threshold * (4/5))
    filterExpr
  if firstPass.isEmpty then []
  else
    let prfResult := expand query firstPass
    if prfResult.expandedQuery = prfResult.originalQuery
        || prfResult.expansionTerms.isEmpty then
      firstPass.take topK
    else
      let enhanced := semanticSearch env prfResult.expandedQuery topK threshold
        filterExpr
      mergeSearchResults enhanced (firstPass.take topK) topK

/-- A preprocessor stub: the trimmed query as its own single variant, no
detected patterns. -/
def trivialPre (q : String) : PreprocessingResult := ⟨q, q, [q], [], ""⟩

/-- An environment whose collection does not exist. -/
def envNoCollection : RetrievalEnv :=
  ⟨trivialPre, false, true, false, fun _ _ _ => [], fun _ _ _ _ => [],
   fun _ _ _ => none⟩

/-- A preprocessing result with exactly two variants and one detected
pattern. -/
def preTwoVariants : PreprocessingResult :=
  ⟨"py error", "py error", ["py error", "python error"],
   ["language:python"], ""⟩

/-- An environment whose store returns no results at any limit. -/
def envEmptyResults : RetrievalEnv :=
  ⟨trivialPre, true, true, false, fun _ _ _ => [], fun _ _ _ _ => [],
   fun _ _ _ => none⟩

/-- A PRF engine stub that echoes the query without expansion terms. -/
def echoExpand (q : String)
    (_ : List ContextTypes.SemanticSearchResult) : PRFEngineModel.PRFResult :=
  ⟨q, q, [], 0, "", 0⟩

/-- A single concrete search result. -/
def sampleResult : ContextTypes.SemanticSearchResult :=
  ⟨"const x = 1;", "src/a.ts", 1, 2, "typescript", 1⟩

/-- An environment whose store returns a result only at limit 15, the
limit the code actually requests on the first PRF query. -/
def envLimit15 : RetrievalEnv :=
  ⟨trivialPre, true, true, false,
   fun _ limit _ => if limit = 15 then [sampleResult] else [],
   fun _ _ _ _ => [], fun _ _ _ => none⟩

end RetrievalModel



namespace EmbeddingCacheModel

theorem unpack_pack (v : List Nat) (hv : ∀ x ∈ v, x < 4294967296) :
    unpackBlob (packVector v) = v := by
  induction v with
  | nil => rfl
  | cons x xs ih =>
      have hx : x < 4294967296 := hv x (List.mem_cons_self x xs)
      have hxs : ∀ y ∈ xs, y < 4294967296 := fun y hy => hv y (List.mem_cons_of_mem x hy)
      simp only [packVector, List.flatMap_cons, wordToBytes, List.cons_append,
        List.nil_append, unpackBlob, List.cons.injEq]
      exact ⟨by omega, ih hxs⟩

/-- C8: a vector set under a content hash is returned bit-exact by a
subsequent get with the same hash, each component being the stored 32-bit
(binary32) pattern. -/
theorem cache_get_after_set (db : CacheDB) (contentHash : String)
    (v : List Nat) (hv : ∀ x ∈ v, x < 4294967296) :
    cacheGet (cacheSet db contentHash v) contentHash = some v := by
  simp [cacheGet, cacheSet, unpack_pack v hv]

/-- Witness for C8 at a concrete store, hash and vector. -/
theorem cache_get_after_set_witness :
    cacheGet (cacheSet (fun _ => none) "abc123" [0, 1, 4294967295]) "abc123"
      = some [0, 1, 4294967295] :=
  cache_get_after_set (fun _ => none) "abc123" [0, 1, 4294967295] (by decide)

end EmbeddingCacheModel

namespace TfIdfModel

theorem tfCountLoop_eq_countP (term : String) (doc : List String) (acc : Nat) :
    tfCountLoop term doc acc
      = acc + doc.countP (fun w => w.toLower = term.toLower) := by
  induction doc generalizing acc with
  | nil => simp [tfCountLoop]
  | cons w ws ih =>
      by_cases h : w.toLower = term.toLower
      · simp [tfCountLoop, h, ih, List.countP_cons]
        omega
      · simp [tfCountLoop, h, ih, List.countP_cons]

theorem dfCountLoop_eq_countP (term : String) (corpus : List (List String)) (acc : Nat) :
    dfCountLoop term corpus acc
      = acc + corpus.countP (fun d => documentContains term d) := by
  induction corpus generalizing acc with
  | nil => simp [dfCountLoop]
  | cons d ds ih =>
      by_cases h : documentContains term d
      · simp [dfCountLoop, h, ih, List.countP_cons]
        omega
      · simp [dfCountLoop, h, ih, List.countP_cons]

/-- C7: over a corpus created from a non-empty list of N documents, tf is
the case-insensitive occurrence count divided by the token count plus one,
and idf is log(N / (df + 1)) + 1 where df is the number of (tokenized)
documents containing the term case-insensitively. -/
theorem tf_idf_formulas (docs : List String) (term : String) (doc : List String)
    (hN : docs ≠ []) :
    calculateTermFrequency term doc
        = ((doc.countP (fun w => w.toLower = term.toLower) : ℚ))
            / ((doc.length : ℚ) + 1)
      ∧ calculateInverseDocumentFrequency (createCorpusFromStringArray docs) term
        = Real.log ((docs.length : ℝ)
            / (((docs.countP (fun d => documentContains term (tokenizeDocument d))) : ℝ) + 1)) + 1 := by
  constructor
  · simp [calculateTermFrequency, tfCountLoop_eq_countP]
  · have hlen : (createCorpusFromStringArray docs).length = docs.length := by
      simp [createCorpusFromStringArray]
    have hne : docs.length ≠ 0 := by
      simpa [List.length_eq_zero] using hN
    simp only [calculateInverseDocumentFrequency, hlen, if_neg hne,
      dfCountLoop_eq_countP, Nat.zero_add]
    simp only [createCorpusFromStringArray, List.countP_map]
    rfl

/-- Witness for C7 on a concrete two-document corpus. -/
theorem tf_idf_formulas_witness :
    ["Error Handling", "try catch"] ≠ ([] : List String)
      ∧ (calculateTermFrequency "error" ["Error", "handling"]
          = ((["Error", "handling"].countP
              (fun w => w.toLower = "error".toLower) : ℚ))
              / (((["Error", "handling"].length : ℚ)) + 1)
        ∧ calculateInverseDocumentFrequency
            (createCorpusFromStringArray ["Error Handling", "try catch"]) "error"
          = Real.log (((["Error Handling", "try catch"] : List String).length : ℝ)
              / (((["Error Handling", "try catch"].countP
                  (fun d => documentContains "error" (tokenizeDocument d))) : ℝ) + 1)) + 1) :=
  ⟨by decide, tf_idf_formulas ["Error Handling", "try catch"] "error"
      ["Error", "handling"] (by decide)⟩

end TfIdfModel

namespace FileTypeWeighting

/-- C10: getFileTypeWeight returns exactly 0.8 precisely when the relative
path matches a test-file pattern registered for the extension or a
language-agnostic mock pattern, and exactly 1.0 otherwise; its range is
the pair 0.8, 1.0. -/
theorem getFileTypeWeight_spec (relativePath fileExtension : String) :
    (getFileTypeWeight relativePath fileExtension = 4/5
      ∨ getFileTypeWeight relativePath fileExtension = 1)
    ∧ (getFileTypeWeight relativePath fileExtension = 4/5
        ↔ ((testPatterns fileExtension).any (fun pat => pat relativePath) = true
            ∨ mockPatterns.any (fun pat => pat relativePath) = true)) := by
  unfold getFileTypeWeight
  by_cases ht : (testPatterns fileExtension).any (fun pat => pat relativePath) = true
  · simp [ht]
  · by_cases hm : mockPatterns.any (fun pat => pat relativePath) = true
    · simp [ht, hm]
    · simp only [Bool.not_eq_true] at ht hm
      simp [ht, hm]
      norm_num

end FileTypeWeighting

namespace PRFEngineModel

/-- C9: getStats never divides by zero: with totalQueries = 0 (fresh
engine or after resetStats) both averages are 0, and with totalQueries
positive they are the exact quotients. -/
theorem getStats_guarded (s : EngineStats) :
    ((getStats initialStats).avgProcessingTime = 0
      ∧ (getStats initialStats).successRate = 0)
    ∧ ((getStats resetStats).avgProcessingTime = 0
      ∧ (getStats resetStats).successRate = 0)
    ∧ (s.totalQueries = 0 →
        (getStats s).avgProcessingTime = 0 ∧ (getStats s).successRate = 0)
    ∧ (0 < s.totalQueries →
        (getStats s).avgProcessingTime = s.totalProcessingTime / (s.totalQueries : ℚ)
        ∧ (getStats s).successRate = (s.successfulExpansions : ℚ) / (s.totalQueries : ℚ)) := by
  refine ⟨⟨rfl, rfl⟩, ⟨rfl, rfl⟩, ?_, ?_⟩
  · intro h0
    simp [getStats, h0]
  · intro hpos
    simp [getStats, hpos]

/-- Witness for C9 at concrete statistics with two processed queries. -/
theorem getStats_guarded_witness :
    (getStats ⟨2, 10, 1⟩).avgProcessingTime = 5
      ∧ (getStats ⟨2, 10, 1⟩).successRate = 1/2 := by
  have h := (getStats_guarded ⟨2, 10, 1⟩).2.2.2 (by norm_num)
  refine ⟨?_, ?_⟩
  · rw [h.1]; norm_num
  · rw [h.2]; norm_num

end PRFEngineModel

namespace ChunkerModel

theorem trimChars_sublist (l : List Char) : List.Sublist (trimChars l) l :=
  ((List.dropWhile_suffix isJsWhitespace).sublist).trans
    ((List.rdropWhile_prefix isJsWhitespace l).sublist)

theorem trimChars_length_le (l : List Char) : (trimChars l).length ≤ l.length :=
  (trimChars_sublist l).length_le

theorem mem_of_mem_trimChars {c : Char} {l : List Char} (h : c ∈ trimChars l) :
    c ∈ l :=
  (trimChars_sublist l).subset h

theorem trimChars_concat_ws (c : Char) (hc : isJsWhitespace c = true)
    (l : List Char) : trimChars (l ++ [c]) = trimChars l := by
  unfold trimChars
  rw [List.rdropWhile_concat_pos isJsWhitespace l c hc]

theorem splitLines_no_newline (l : List Char) :
    ∀ line ∈ splitLines l, '\n' ∉ line := by
  induction l with
  | nil =>
      intro line hline
      simp only [splitLines, List.mem_singleton] at hline
      simp [hline]
  | cons c cs ih =>
      intro line hline
      by_cases hc : c = '\n'
      · simp only [splitLines, if_pos hc, List.mem_cons] at hline
        rcases hline with h | h
        · simp [h]
        · exact ih line h
      · simp only [splitLines, if_neg hc] at hline
        rcases hrec : splitLines cs with _ | ⟨r, rs⟩
        · rw [hrec] at hline
          simp only [List.mem_singleton] at hline
          subst hline
          intro h
          exact hc (List.mem_singleton.mp h).symm
        · rw [hrec] at hline
          rcases List.mem_cons.mp hline with h | h
          · subst h
            intro hmem
            rcases List.mem_cons.mp hmem with h | h
            · exact hc h.symm
            · exact ih r (by rw [hrec]; exact List.mem_cons_self r rs) h
          · exact ih line (by rw [hrec]; exact List.mem_cons_of_mem r h)

theorem good_line_with_newline {line : List Char} (hline : '\n' ∉ line)
    (isLast : Bool) :
    '\n' ∉ trimChars (if isLast then line else line ++ ['\n']) := by
  cases isLast with
  | true =>
      rw [if_pos rfl]
      exact fun h => hline (mem_of_mem_trimChars h)
  | false =>
      rw [if_neg Bool.false_ne_true,
        trimChars_concat_ws '\n' (by decide) line]
      exact fun h => hline (mem_of_mem_trimChars h)

theorem splitStep_good {chunkSize origStartLine i : Nat} {isLast : Bool}
    {line : List Char} {st : SplitState}
    (hst : GoodState chunkSize st) (hline : '\n' ∉ line) :
    GoodState chunkSize (splitStep chunkSize origStartLine i isLast line st) := by
  obtain ⟨hsub, hcur⟩ := hst
  unfold splitStep
  by_cases hcond : chunkSize < st.currentChunk.length
      + (if isLast then line else line ++ ['\n']).length
      ∧ 0 < st.currentChunk.length
  · simp only [if_pos hcond]
    constructor
    · intro c hc
      rcases List.mem_append.mp hc with h | h
      · exact hsub c h
      · simp only [List.mem_singleton] at h
        subst h
        rcases hcur with h | h
        · exact Or.inl ((trimChars_length_le _).trans h)
        · exact Or.inr h
    · exact Or.inr (good_line_with_newline hline isLast)
  · simp only [if_neg hcond]
    refine ⟨hsub, ?_⟩
    rcases Decidable.not_and_iff_or_not.mp hcond with h | h
    · push_neg at h
      exact Or.inl (by simpa using h)
    · have hz : st.currentChunk = [] := by
        simpa [List.length_eq_zero] using h
      rw [hz]
      simp only [List.nil_append, List.length_nil]
      exact Or.inr (good_line_with_newline hline isLast)

theorem splitLoop_good {chunkSize origStartLine : Nat} (lines : List (List Char)) :
    ∀ (i : Nat) (st : SplitState), GoodState chunkSize st →
      (∀ line ∈ lines, '\n' ∉ line) →
      GoodState chunkSize (splitLoop chunkSize origStartLine lines i st) := by
  induction lines with
  | nil =>
      intro i st hst _
      simpa [splitLoop] using hst
  | cons l ls ih =>
      intro i st hst hlines
      cases ls with
      | nil =>
          simp only [splitLoop]
          exact splitStep_good hst (hlines l (List.mem_cons_self l []))
      | cons l2 ls2 =>
          simp only [splitLoop]
          exact ih (i + 1) _
            (splitStep_good hst (hlines l (List.mem_cons_self l (l2 :: ls2))))
            (fun line h => hlines line (List.mem_cons_of_mem l h))

theorem splitLargeChunk_sizeOk (chunkSize : Nat) (chunk : CodeChunk) :
    ∀ c ∈ splitLargeChunk chunkSize chunk, sizeOk chunkSize c := by
  intro c hc
  unfold splitLargeChunk at hc
  have hst : GoodState chunkSize
      (splitLoop chunkSize chunk.startLine (splitLines chunk.content) 0
        ⟨[], [], chunk.startLine, 0⟩) := by
    refine splitLoop_good (splitLines chunk.content) 0 _ ?_
      (splitLines_no_newline chunk.content)
    exact ⟨fun c h => absurd h (List.not_mem_nil c), Or.inl (Nat.zero_le _)⟩
  obtain ⟨hsub, hcur⟩ := hst
  by_cases hfinal : 0 < (trimChars (splitLoop chunkSize chunk.startLine
      (splitLines chunk.content) 0 ⟨[], [], chunk.startLine, 0⟩).currentChunk).length
  · rw [if_pos hfinal] at hc
    rcases List.mem_append.mp hc with h | h
    · exact hsub c h
    · simp only [List.mem_singleton] at h
      subst h
      rcases hcur with h | h
      · exact Or.inl ((trimChars_length_le _).trans h)
      · exact Or.inr h
  · rw [if_neg hfinal] at hc
    exact hsub c hc

theorem dedupLoop_subset (chunks : List CodeChunk) :
    ∀ (seen : List (Nat × Nat)) (c : CodeChunk),
      c ∈ dedupLoop chunks seen → c ∈ chunks := by
  induction chunks with
  | nil =>
      intro seen c hc
      simp [dedupLoop] at hc
  | cons x xs ih =>
      intro seen c hc
      unfold dedupLoop at hc
      by_cases hm : (x.startLine, x.endLine) ∈ seen
      · rw [if_pos hm] at hc
        exact List.mem_cons_of_mem x (ih seen c hc)
      · rw [if_neg hm] at hc
        rcases List.mem_cons.mp hc with h | h
        · exact h ▸ List.mem_cons_self x xs
        · exact List.mem_cons_of_mem x (ih _ c h)

theorem addOverlap_zero (chunks : List CodeChunk) :
    addOverlap 0 chunks = chunks := by
  unfold addOverlap
  rw [if_pos (Or.inr rfl)]

theorem refineChunks_sizeOk (chunkSize : Nat) (chunks : List CodeChunk) :
    ∀ c ∈ refineChunks chunkSize 0 chunks, sizeOk chunkSize c := by
  intro c hc
  unfold refineChunks at hc
  rw [addOverlap_zero] at hc
  have hmem := dedupLoop_subset _ _ c hc
  rcases List.mem_flatMap.mp hmem with ⟨a, ha, hca⟩
  by_cases hlen : a.content.length ≤ chunkSize
  · rw [if_pos hlen] at hca
    simp only [List.mem_singleton] at hca
    subst hca
    exact Or.inl hlen
  · rw [if_neg hlen] at hca
    exact splitLargeChunk_sizeOk chunkSize a c hca

/-- C3 (amended): after refinement (overlap disabled), every chunk of the
chunker either has content length at most chunk_size or contains no
newline: a single line longer than chunk_size is force-included into a
sub-chunk that exceeds the bound, and whitespace-only accumulations can
trim to empty content. -/
theorem astSplit_refined_sizeOk (chunkSize : Nat) (code : List Char)
    (types : List String) (root : SNode) :
    ∀ c ∈ astSplit chunkSize 0 code types root,
      c.content.length ≤ chunkSize ∨ '\n' ∉ c.content := by
  intro c hc
  exact refineChunks_sizeOk chunkSize (extractChunks code types root) c hc

/-- Witness for C3 (amended) on a concrete file whose single line exceeds
the chunk size. -/
theorem astSplit_refined_sizeOk_witness :
    (⟨"aaaaaaa".toList, 2, 2⟩ : CodeChunk)
        ∈ astSplit 3 0 ("\naaaaaaa".toList) typescriptTypes
            (SNode.mk "program" 0 8 0 1 [])
      ∧ (("aaaaaaa".toList : List Char).length ≤ 3
          ∨ '\n' ∉ ("aaaaaaa".toList : List Char)) :=
  ⟨by decide,
   astSplit_refined_sizeOk 3 ("\naaaaaaa".toList) typescriptTypes
     (SNode.mk "program" 0 8 0 1 []) ⟨"aaaaaaa".toList, 2, 2⟩ (by decide)⟩

/-- C3 counterexample: the claimed bound 0 < length ≤ chunk_size fails:
on the file consisting of an empty line followed by a 7-character line,
with chunk_size 3 the refined output contains a chunk of empty content
and a chunk of length 7. -/
theorem astSplit_refined_bound_counterexample :
    ¬ (∀ c ∈ astSplit 3 0 ("\naaaaaaa".toList) typescriptTypes
          (SNode.mk "program" 0 8 0 1 []),
        0 < c.content.length ∧ c.content.length ≤ 3) := by
  decide

theorem traverse_processed (code : List Char) (types : List String)
    (processed : List SNode) (n : SNode) (h : n ∈ processed) :
    traverse code types processed n = [] := by
  cases n with
  | mk k s e r0 r1 cs =>
      unfold traverse
      rw [if_pos h]

mutual

theorem traverse_mem (code : List Char) (types : List String)
    (processed : List SNode) :
    ∀ (n : SNode) (c : CodeChunk), c ∈ traverse code types processed n →
      ∃ m, m ∈ allNodes n ∧ m ∉ processed ∧ m.kind ∈ types
        ∧ c = chunkOfNode code m
  | .mk k s e r0 r1 cs, c => by
      intro hc
      unfold traverse at hc
      by_cases hp : SNode.mk k s e r0 r1 cs ∈ processed
      · rw [if_pos hp] at hc
        exact absurd hc (List.not_mem_nil c)
      · rw [if_neg hp] at hc
        rcases List.mem_append.mp hc with h | h
        · by_cases hcond : k ∈ types ∧ 0 < (trimChars (sliceCode code s e)).length
          · rw [if_pos hcond] at h
            simp only [List.mem_singleton] at h
            refine ⟨SNode.mk k s e r0 r1 cs, ?_, hp, hcond.1, ?_⟩
            · unfold allNodes
              exact List.mem_cons_self _ _
            · rw [h]
              rfl
          · rw [if_neg hcond] at h
            exact absurd h (List.not_mem_nil c)
        · obtain ⟨m, hm, hmp, hmk, hcm⟩ :=
            traverseList_mem code types processed cs c h
          refine ⟨m, ?_, hmp, hmk, hcm⟩
          unfold allNodes
          exact List.mem_cons_of_mem _ hm

theorem traverseList_mem (code : List Char) (types : List String)
    (processed : List SNode) :
    ∀ (ns : List SNode) (c : CodeChunk), c ∈ traverseList code types processed ns →
      ∃ m, m ∈ allNodesList ns ∧ m ∉ processed ∧ m.kind ∈ types
        ∧ c = chunkOfNode code m
  | [], c => by
      intro hc
      unfold traverseList at hc
      exact absurd hc (List.not_mem_nil c)
  | n :: ns, c => by
      intro hc
      unfold traverseList at hc
      rcases List.mem_append.mp hc with h | h
      · obtain ⟨m, hm, hmp, hmk, hcm⟩ := traverse_mem code types processed n c h
        refine ⟨m, ?_, hmp, hmk, hcm⟩
        unfold allNodesList
        exact List.mem_append.mpr (Or.inl hm)
      · obtain ⟨m, hm, hmp, hmk, hcm⟩ :=
          traverseList_mem code types processed ns c h
        refine ⟨m, ?_, hmp, hmk, hcm⟩
        unfold allNodesList
        exact List.mem_append.mpr (Or.inr hm)

end

/-- C5 (amended): when the top-level children begin with at least two
siblings whose node type is literally import_statement (skipping comment
and whitespace siblings), the chunker emits first, and exactly once, a
chunk from the first import start offset to the last import end offset,
and the traversal yields nothing from any of the consumed import nodes.
The uniqueness hypothesis states that no other splittable node of the
tree shares the grouped row span, which holds in any well-formed parse
tree. -/
theorem grouped_imports_emitted (code : List Char) (types : List String)
    (root f r : SNode) (rest : List SNode)
    (himps : collectImports code root.children = f :: r :: rest)
    (hspan : ∀ m ∈ allNodes root, m.kind ∈ types →
        m ∉ (f :: r :: rest) →
        ¬(m.startRow = f.startRow
          ∧ m.endRow = ((r :: rest).getLast (List.cons_ne_nil r rest)).endRow)) :
    extractChunks code types root
        = ⟨sliceCode code f.startIndex
             ((r :: rest).getLast (List.cons_ne_nil r rest)).endIndex,
           f.startRow + 1,
           ((r :: rest).getLast (List.cons_ne_nil r rest)).endRow + 1⟩
          :: traverse code types (f :: r :: rest) root
      ∧ (extractChunks code types root).countP
          (fun c => decide (c.startLine = f.startRow + 1)
            && decide (c.endLine
              = ((r :: rest).getLast (List.cons_ne_nil r rest)).endRow + 1)) = 1
      ∧ ∀ n ∈ f :: r :: rest, traverse code types (f :: r :: rest) n = [] := by
  have hgp : groupConsecutiveImports code root
      = (some ⟨sliceCode code f.startIndex
              ((r :: rest).getLast (List.cons_ne_nil r rest)).endIndex,
            f.startRow + 1,
            ((r :: rest).getLast (List.cons_ne_nil r rest)).endRow + 1⟩,
         f :: r :: rest) := by
    unfold groupConsecutiveImports
    rw [himps]
  have hout : extractChunks code types root
      = ⟨sliceCode code f.startIndex
           ((r :: rest).getLast (List.cons_ne_nil r rest)).endIndex,
         f.startRow + 1,
         ((r :: rest).getLast (List.cons_ne_nil r rest)).endRow + 1⟩
        :: traverse code types (f :: r :: rest) root := by
    unfold extractChunks
    rw [hgp]
    simp
  refine ⟨hout, ?_, ?_⟩
  · rw [hout]
    rw [List.countP_cons]
    have hzero : (traverse code types (f :: r :: rest) root).countP
        (fun c => decide (c.startLine = f.startRow + 1)
          && decide (c.endLine
            = ((r :: rest).getLast (List.cons_ne_nil r rest)).endRow + 1)) = 0 := by
      rw [List.countP_eq_zero]
      intro c hc
      obtain ⟨m, hm, hmp, hmk, hcm⟩ :=
        traverse_mem code types (f :: r :: rest) root c hc
      simp only [Bool.and_eq_true, decide_eq_true_eq, not_and]
      intro h1 h2
      refine hspan m hm hmk hmp ⟨?_, ?_⟩
      · have : c.startLine = m.startRow + 1 := by rw [hcm]; rfl
        omega
      · have : c.endLine = m.endRow + 1 := by rw [hcm]; rfl
        omega
    rw [hzero]
    simp
  · intro n hn
    exact traverse_processed code types (f :: r :: rest) n hn

/-- Witness for C5 (amended) on the three-import TSX example: exactly one
chunk spans lines 1 to 3. -/
theorem grouped_imports_emitted_witness :
    (extractChunks tsxExampleCode typescriptTypes tsxRoot).countP
        (fun c => decide (c.startLine = 1) && decide (c.endLine = 3)) = 1 := by
  have h := grouped_imports_emitted tsxExampleCode typescriptTypes tsxRoot
    tsxImp1 tsxImp2 [tsxImp3] (by decide) (by decide)
  exact h.2.1

/-- C5 counterexample: for the java grammar, whose import kind is
import_declaration, a file beginning with two imports yields no grouped
chunk spanning both import lines: the hard-coded import_statement check
never fires. -/
theorem grouped_imports_java_counterexample :
    (javaRoot.children.map SNode.kind).take 2
        = ["import_declaration", "import_declaration"]
      ∧ (extractChunks javaExampleCode javaTypes javaRoot).countP
          (fun c => decide (c.startLine = 1) && decide (c.endLine = 2)) = 0 := by
  refine ⟨by decide, ?_⟩
  decide

end ChunkerModel

namespace PRFEngineModel

/-- C6 (amended): an empty (or whitespace-only) original query does not
surface an error: the internal throw is caught by the catch-all and the
caller receives a PRFResult that echoes the original query and records
the failure in reasoning; expandQuery returns a PRFResult in every
case. -/
theorem expandQuery_empty_query (cfg : PRFConfig) (q : String)
    (rs : List ContextTypes.SemanticSearchResult)
    (hq : ChunkerModel.trimChars q.toList = []) :
    expandQuery cfg q rs
      = ⟨q, q, [], 0, "PRF expansion failed: Original query cannot be empty", 0⟩ := by
  unfold expandQuery expandQueryBody
  rw [if_pos hq]
  rfl

/-- Witness for C6 (amended) at the empty query and default
configuration. -/
theorem expandQuery_empty_query_witness :
    expandQuery defaultPRFConfig "" []
      = ⟨"", "", [], 0, "PRF expansion failed: Original query cannot be empty", 0⟩ :=
  expandQuery_empty_query defaultPRFConfig "" [] (by decide)

/-- C6 counterexample: the claim that an empty query fails with
InvalidArgument surfaced to the caller is false: the caller always
receives a resolved PRFResult, never an error. -/
theorem expandQuery_empty_query_counterexample :
    expandQuerySurfaced defaultPRFConfig "" []
      ≠ Except.error PRFError.invalidArgument := by
  simp [expandQuerySurfaced]

end PRFEngineModel

namespace RetrievalModel

/-- C1 (amended): a query against a codebase whose collection does not
exist returns the empty result list; no error is raised. -/
theorem semanticSearch_no_collection (env : RetrievalEnv) (query : String)
    (topK : Nat) (threshold : ℚ) (filterExpr : Option String)
    (h : env.hasCollection = false) :
    semanticSearch env query topK threshold filterExpr = [] := by
  simp [semanticSearch, h]

/-- Witness for C1 (amended) at a concrete collectionless environment. -/
theorem semanticSearch_no_collection_witness :
    semanticSearch envNoCollection "query" 5 (1/2) none = [] :=
  semanticSearch_no_collection envNoCollection "query" 5 (1/2) none rfl

/-- C1 counterexample: the claim that the search fails with NotIndexed is
false: the caller-visible outcome on a missing collection is a resolved
empty list, never an error. -/
theorem semanticSearch_no_collection_counterexample :
    semanticSearchSurfaced envNoCollection "query" 5 (1/2) none
      ≠ Except.error ContextError.notIndexed := by
  simp [semanticSearchSurfaced]

/-- C4 (amended): multi-query retrieval is used precisely when there are
strictly more than two expanded terms (at least three) and at least one
detected pattern. -/
theorem useMultipleVariants_iff (pre : PreprocessingResult) :
    useMultipleVariants pre = true
      ↔ (3 ≤ pre.expandedTerms.length ∧ pre.detectedPatterns ≠ []) := by
  unfold useMultipleVariants
  simp only [Bool.and_eq_true, decide_eq_true_eq, gt_iff_lt]
  rw [List.length_pos]
  constructor
  · exact fun h => ⟨by omega, h.2⟩
  · exact fun h => ⟨by omega, h.2⟩

/-- C4 counterexample: with exactly two expanded terms and a detected
pattern the claim demands multi-query retrieval, but the code takes the
single-query branch. -/
theorem useMultipleVariants_counterexample :
    (2 ≤ preTwoVariants.expandedTerms.length
      ∧ preTwoVariants.detectedPatterns ≠ [])
      ∧ useMultipleVariants preTwoVariants = false := by
  decide

/-- C2 (amended): the PRF first pass runs the ordinary search with
threshold 0.8 times the requested one and limit max(12, topK times 2)
once the engine has processed at least one query, max(15, topK times 2)
on the very first; when that pass is empty the operation returns the
empty list. -/
theorem semanticSearchWithPRF_first_pass (env : RetrievalEnv)
    (expand : String → List ContextTypes.SemanticSearchResult →
      PRFEngineModel.PRFResult)
    (totalQueries : Nat) (query : String) (topK : Nat) (threshold : ℚ)
    (filterExpr : Option String) :
    (0 < totalQueries → prfInitialTopK totalQueries topK = max 12 (topK * 2))
    ∧ (semanticSearch env query (prfInitialTopK totalQueries topK)
          (threshold * (4/5)) filterExpr = [] →
        semanticSearchWithPRF env expand totalQueries query topK threshold
          filterExpr = []) := by
  constructor
  · intro hpos
    unfold prfInitialTopK
    rw [if_neg (by omega)]
  · intro hempty
    simp [semanticSearchWithPRF, hempty]

/-- Witness for C2 (amended): after one processed query the first-pass
limit is max(12, topK times 2), and an empty first pass yields the empty
result. -/
theorem semanticSearchWithPRF_first_pass_witness :
    prfInitialTopK 1 5 = max 12 (5 * 2)
      ∧ semanticSearchWithPRF envEmptyResults echoExpand 1 "q" 5 (1/2) none
          = [] := by
  have h := semanticSearchWithPRF_first_pass envEmptyResults echoExpand 1 "q" 5
    (1/2) none
  exact ⟨h.1 (by omega), h.2 (by decide)⟩

/-- C2 counterexample: on a fresh engine (totalQueries 0) with topK 5 the
first pass uses limit 15, not max(12, topK times 2) = 12: at the claimed
limit the store returns nothing, yet the PRF search returns a result. -/
theorem semanticSearchWithPRF_first_pass_counterexample :
    semanticSearch envLimit15 "q" (max 12 (5 * 2)) ((1/2) * (4/5)) none = []
      ∧ semanticSearchWithPRF envLimit15 echoExpand 0 "q" 5 (1/2) none
          = [sampleResult] := by
  refine ⟨by decide, ?_⟩
  decide

end RetrievalModel
